import Mathlib

/-!
Shallow embedding of the CarnivoresIO codec (Tibbee/CarnivoresIO).

The Python sources under `src/` are embedded as executable Lean definitions:

* machine integers (`uint16`, `uint32`, `int16`, `int32`) become `ℕ`/`ℤ`
  with explicit `% 2^w` where overflow matters;
* `float32`/`float64` payloads and arithmetic are modelled exactly over `ℚ`
  (non-finite float payloads such as NaN are not representable in this model);
* numpy arrays become `List`s, in-place masked assignments become `List.map`
  with the same per-element conditional;
* Python exceptions become `Except Err`, the accumulated warning strings
  become a `List Warning` of tagged values carrying the same counts the
  formatted strings report.
-/

namespace CarnivoresIO

/-- Truncation toward zero of a rational number, as Python's `int(...)`
conversion and numpy's float→integer `astype` cast behave on finite values. -/
def ratTrunc (q : ℚ) : ℤ := if 0 ≤ q then ⌊q⌋ else -⌊-q⌋

/-- Round-half-to-even of a rational number, as numpy's `ndarray.round`. -/
def npRound (q : ℚ) : ℤ :=
  if Int.fract q < 1/2 then ⌊q⌋
  else if 1/2 < Int.fract q then ⌊q⌋ + 1
  else if Even ⌊q⌋ then ⌊q⌋ else ⌊q⌋ + 1

/-- Warnings appended by the validators.  The source appends formatted strings;
each constructor carries the same numeric payload its string reports. -/
inductive Warning
  | highVertexCount (n : ℕ)
  | highFaceCount (n : ℕ)
  | highBoneCount (n : ℕ)
  | unusualTextureHeight (h : ℕ)
  | extraBytes (n : ℕ)
  | nonzeroHide (count : ℕ)
  | invalidOwner (count : ℕ)
  | ownersZeroed
  | faceIdxClamped (count : ℕ)
  | degenerateFaces (count : ℕ)
  | uCoordsClipped (count : ℕ)
  | vCoordsClipped (count : ℕ)
  | unknownFlagBits (count : ℕ) (first : ℕ)
  | nonzeroField (field : String) (count : ℕ)
  | nonzeroReserv
  | boneCycle (start : ℤ)
  | alphaBitsUnexpected
  | rgbOutOfRange
  | textureAllZero
  | invalidCrossRef (count : ℕ)
deriving DecidableEq

/-- Fatal errors raised by the decoders/validators.  The source raises
`ValueError` with a formatted message; each constructor stands for one
distinct raise site and carries the numbers its message reports. -/
inductive Err
  | nonPositiveCounts
  | vertexCountTooLarge (n : ℕ)
  | faceCountTooLarge (n : ℕ)
  | boneCountTooLarge (n : ℕ)
  | textureTooLarge (n : ℕ)
  | textureNotAligned (n : ℕ)
  | fileTooSmall (expected actual : ℕ)
  | faceCountMismatch (got expected : ℕ)
  | vertexCountMismatch (got expected : ℕ)
  | boneCountMismatch (got expected : ℕ)
  | invalidParentIndices (count : ℕ)
  | textureLengthMismatch (got expected : ℕ)
deriving DecidableEq

/-! ## AnimationBaker sample count (`bake_range`, src/parsers/export_car.py)

`bake_range` computes
`frame_step = scene_fps / kps` (with the `kps <= 0` safety clamp to 1) and
`num_samples = int(((end - start) / frame_step) + 0.5) + 1`.
The source computes with Python floats; it is modelled exactly over `ℚ`. -/

/-- Number of samples `bake_range` produces for a frame range and key rate. -/
def bake_num_samples (scene_fps kps start_ end_ : ℤ) : ℤ :=
  let kps' : ℤ := if kps ≤ 0 then 1 else kps
  let frame_step : ℚ := (scene_fps : ℚ) / (kps' : ℚ)
  ratTrunc (((end_ - start_ : ℤ) : ℚ) / frame_step + 1/2) + 1

/-! ## SoundBundler per-sample conversion (`convert_sound_to_22khz_mono`)

The source converts float samples by
`np.clip(data * 32767, -32768, 32767).astype(np.int16)`:
the scaled value is clamped and then truncated toward zero by the
float→int16 cast; no rounding to nearest takes place. -/

/-- One float audio sample converted to a 16-bit signed PCM value, per
`convert_sound_to_22khz_mono` in src/parsers/export_car.py. -/
def convert_sample (s : ℚ) : ℤ :=
  ratTrunc (max (-32768) (min 32767 (s * 32767)))

/-- Modelled from the spec for the refinement comparison of claim C9: the
spec states the conversion is `clamp(round(sample × 32767), -32768, 32767)`. -/
def spec_convert_sample (s : ℚ) : ℤ :=
  max (-32768) (min 32767 (round (s * 32767)))

/-! ## Cross-reference clamping (`parse_car_sounds_and_crossref`,
src/parsers/parse_car.py lines 136-152) -/

/-- True on a cross-reference entry the validator treats as invalid:
`(cross_ref >= header['sfx_count']) | (cross_ref < -1)`. -/
def crossRefInvalid (sfx_count : ℕ) (x : ℤ) : Bool :=
  decide ((sfx_count : ℤ) ≤ x) || decide (x < -1)

/-- Cross-reference table clamping: invalid entries are replaced by `-1`;
when any entry was invalid and `validate` is set, one warning carrying the
count of invalid entries is appended. -/
def clamp_crossref (cross_ref : List ℤ) (sfx_count : ℕ) (validate : Bool)
    (w : List Warning) : List ℤ × List Warning :=
  let clamped := cross_ref.map fun x => if crossRefInvalid sfx_count x then -1 else x
  if cross_ref.any (crossRefInvalid sfx_count) then
    (clamped,
      if validate then
        w ++ [Warning.invalidCrossRef (cross_ref.filter (crossRefInvalid sfx_count)).length]
      else w)
  else (cross_ref, w)

/-! ## CAR owner indices (`export_car` write-out and `handle_car_owners`) -/

/-- Minimum of a list of naturals, mirroring `np.min` on a non-empty array. -/
def listMin : List ℕ → Option ℕ
  | [] => none
  | x :: xs =>
      match listMin xs with
      | none => some x
      | some m => some (min x m)

/-- Owner write-out of `export_car` (src/parsers/export_car.py lines 364-373):
`car_verts_arr['owner'] += 1` on the uint16 owner field. -/
def export_car_owners (owners : List ℕ) : List ℕ :=
  owners.map fun o => (o + 1) % 65536

/-- Owner normalisation of `handle_car_owners` (src/utils/io.py lines 659-669):
subtract the minimum non-zero owner from every non-zero owner.  The generated
`CarBone_i` name list is omitted here; it does not affect the owner values. -/
def handle_car_owners (owners : List ℕ) : List ℕ :=
  match listMin (owners.filter fun o => decide (0 < o)) with
  | none => owners
  | some m => owners.map fun o => if 0 < o then o - m else o

/-! ## TextureCodec (`parse_3df_texture`, `image_to_argb1555`) -/

/-- Unpacked RGBA pixel: red, green, blue, alpha as rationals. -/
abbrev Pixel := ℚ × ℚ × ℚ × ℚ

/-- Decode one ARGB1555 word as `parse_3df_texture` does: extract the 5-bit
red/green/blue fields, normalise by dividing by 31, force alpha to 0. -/
def unpackWord (x : ℕ) : Pixel :=
  ((((x >>> 10) &&& 31 : ℕ) : ℚ) / 31,
   (((x >>> 5) &&& 31 : ℕ) : ℚ) / 31,
   ((x &&& 31 : ℕ) : ℚ) / 31, 0)

/-- Clamp a rounded channel value to [0, 31] (`np.clip(..., 0, 31)`). -/
def clip31 (z : ℤ) : ℕ := (max 0 (min 31 z)).toNat

/-- Encode one pixel as `image_to_argb1555` does: each channel times 31,
rounded (numpy round-half-even), clamped to [0, 31]; the alpha bit is
always written as 0. -/
def packPixel (p : Pixel) : ℕ :=
  let r := clip31 (npRound (p.1 * 31))
  let g := clip31 (npRound (p.2.1 * 31))
  let b := clip31 (npRound (p.2.2.1 * 31))
  (0 <<< 15) ||| (r <<< 10) ||| (g <<< 5) ||| b

/-- Split a flat list into `h` rows of width `w` (numpy `reshape(h, w, ...)`). -/
def splitRows (w : ℕ) : ℕ → List α → List (List α)
  | 0, _ => []
  | h + 1, l => l.take w :: splitRows w h (l.drop w)

/-- Reverse the row order of a flat `h × w` list
(numpy `reshape(h, w, ...)[::-1].ravel()`). -/
def flipRows (h w : ℕ) (l : List α) : List α :=
  ((splitRows w h l).reverse).flatten

/-- Texture decoding of `parse_3df_texture` (src/parsers/parse_3df.py lines
64-83): length check against `texture_size // 2`, 512-byte row alignment
check, ARGB1555 unpacking, and the vertical row flip applied for positive
heights.  Returns the unpacked pixels and the raw words. -/
def parse_3df_texture (words : List ℕ) (texture_size texture_height : ℕ) :
    Except Err (List Pixel × List ℕ) :=
  if words.length ≠ texture_size / 2 then
    .error (.textureLengthMismatch words.length (texture_size / 2))
  else if texture_size % 512 ≠ 0 then .error (.textureNotAligned texture_size)
  else
    let px := words.map unpackWord
    .ok ((if 0 < texture_height then flipRows texture_height 256 px else px), words)

/-- Texture encoding of `image_to_argb1555` (src/utils/io.py lines 497-519):
flip the pixel rows vertically, then pack each pixel.  The source's fatal
width-256 and pixel-buffer-length checks appear as the round-trip theorem's
length hypothesis. -/
def image_to_argb1555 (pixels : List Pixel) (height : ℕ) : List ℕ :=
  (flipRows height 256 pixels).map packPixel

/-! ## StructuralValidator: bone parent validation and cycle repair
(`detect_bone_cycles` and `validate_3df_bones`, src/parsers/validate_3df.py) -/

/-- One step along a parent link: `parents[node]` for an in-range node, `-1`
otherwise.  The source's walks return at `-1` and do not recurse past an
out-of-range node; after the fatal range check only `-1` and in-range values
occur, where this agrees with the source exactly. -/
def pstep (ps : List ℤ) (x : ℤ) : ℤ :=
  if h : 0 ≤ x ∧ x.toNat < ps.length then ps.get ⟨x.toNat, h.2⟩ else -1

/-- Following `k` parent links from `x`; the virtual root `-1` is absorbing. -/
def iterWalk (ps : List ℤ) (x : ℤ) (k : ℕ) : ℤ := (pstep ps)^[k] x

/-- The recursive walk of `has_cycle` inside `detect_bone_cycles`: follow
parent links carrying the current path; `true` on revisiting a node of the
path, `false` on reaching `-1`.  During the descent of this linear recursion
the source's `visited` set equals its `path` set, so one seen list models
both.  Fuel `bone_count + 1` is exact for range-valid parent arrays: every
step pushes a distinct in-range node onto the path. -/
def walkRevisits (ps : List ℤ) : ℕ → ℤ → List ℤ → Bool
  | 0, _, _ => false
  | fuel + 1, node, seen =>
      if node ∈ seen then true
      else if node = -1 then false
      else walkRevisits ps fuel (pstep ps node) (node :: seen)

/-- `detect_bone_cycles`: the first bone index whose walk revisits a node on
its own path, or `-1` when no walk does. -/
def detect_bone_cycles (ps : List ℤ) : ℤ :=
  match (List.range ps.length).find?
      (fun i => walkRevisits ps (ps.length + 1) ((i : ℕ) : ℤ) []) with
  | some i => ((i : ℕ) : ℤ)
  | none => -1

/-- The recursive walk of `break_cycles` inside `validate_3df_bones`: follow
parent links; on revisiting a node of the current path, set that node's
parent to `-1` and stop.  The parent array is read but never written before
that single terminal write, so it is threaded unchanged through the walk. -/
def breakWalk (ps : List ℤ) : ℕ → ℤ → List ℤ → List ℤ
  | 0, _, _ => ps
  | fuel + 1, node, seen =>
      if node ∈ seen then ps.set node.toNat (-1)
      else if node = -1 then ps
      else breakWalk ps fuel (pstep ps node) (node :: seen)

/-- The repair loop of `validate_3df_bones`: run the breaking walk from every
bone index in order, with fresh visited/path sets per start index. -/
def break_cycles (ps : List ℤ) : List ℤ :=
  (List.range ps.length).foldl
    (fun acc i => breakWalk acc (acc.length + 1) ((i : ℕ) : ℤ) []) ps

/-- Parent-column projection of `validate_3df_bones` (src/parsers/validate_3df.py
lines 169-230): the bone-count check, the fatal out-of-range parent check and
the cycle detection/repair with its warning.  Name decoding, duplicate- and
empty-name warnings, the position finiteness check and the `hidden` warning
are omitted: none of them modifies the `parent` column. -/
def validate_3df_bones_parents (ps : List ℤ) (bone_count : ℕ) (w : List Warning) :
    Except Err (List ℤ × List Warning) :=
  if ps.length ≠ bone_count then .error (.boneCountMismatch ps.length bone_count)
  else
    let bad := ps.filter fun p =>
      !(decide (p = -1) || (decide (0 ≤ p) && decide (p < (bone_count : ℤ))))
    if bad.length ≠ 0 then .error (.invalidParentIndices bad.length)
    else
      let c := detect_bone_cycles ps
      if c ≠ -1 then .ok (break_cycles ps, w ++ [.boneCycle c])
      else .ok (ps, w)

/-! ## SkeletonInference (`infer_hierarchy_mst`, src/utils/animation.py
lines 534-591)

The source compares Euclidean distances (`np.linalg.norm`) and multiplies
crossing edges by 50 before comparison.  The embedding carries squared
weights: plain edges weigh `dist2` and crossing edges `2500 * dist2`, which
is order-isomorphic to the source's comparison of `norm` and `50 * norm`
(squaring is strictly monotone on nonnegatives; claim C8's theorem proves
this bridge over `ℝ` explicitly). -/

/-- A group centroid (float64 triple, modelled over `ℚ`). -/
abbrev Pt := ℚ × ℚ × ℚ

/-- Squared Euclidean distance between two centroids. -/
def dist2 (p c : Pt) : ℚ :=
  (p.1 - c.1) ^ 2 + (p.2.1 - c.2.1) ^ 2 + (p.2.2 - c.2.2) ^ 2

/-- The symmetry-plane test of the source:
`(p_pos[0] > 0.05 and c_pos[0] < -0.05) or (p_pos[0] < -0.05 and c_pos[0] > 0.05)`. -/
def crossesSym (p c : Pt) : Prop :=
  (1/20 < p.1 ∧ c.1 < -(1/20)) ∨ (p.1 < -(1/20) ∧ 1/20 < c.1)

instance (p c : Pt) : Decidable (crossesSym p c) := by
  unfold crossesSym
  infer_instance

/-- Squared penalised edge weight: the source's `dist * 50` penalty becomes
`2500 ×` on squared distances. -/
def edgeWeight2 (p c : Pt) : ℚ :=
  if crossesSym p c then 2500 * dist2 p c else dist2 p c

/-- One candidate edge considered by the scan: keep the strictly smaller
weight (`if dist < min_dist`), `none` standing for the initial infinity. -/
def scanStep (pos : List Pt) (best : Option (ℚ × ℕ × ℕ)) (i j : ℕ) :
    Option (ℚ × ℕ × ℕ) :=
  let d := edgeWeight2 (pos.getD i (0, 0, 0)) (pos.getD j (0, 0, 0))
  match best with
  | none => some (d, i, j)
  | some (m, bi, bj) => if d < m then some (d, i, j) else some (m, bi, bj)

/-- The nested candidate scan of one Prim iteration: `i` over connected
nodes, `j` over unconnected nodes, in index order. -/
def primScan (pos : List Pt) (conn : List Bool) : Option (ℚ × ℕ × ℕ) :=
  (List.range pos.length).foldl
    (fun best i =>
      if conn.getD i false then
        (List.range pos.length).foldl
          (fun best j =>
            if conn.getD j false then best else scanStep pos best i j)
          best
      else best)
    none

/-- The `num_bones - 1` Prim iterations: each picks the best candidate edge
(when one exists), records the parent and connects the child. -/
def primSteps (pos : List Pt) : ℕ → List ℤ × List Bool → List ℤ × List Bool
  | 0, st => st
  | k + 1, (par, conn) =>
      match primScan pos conn with
      | some (_, i, j) => primSteps pos k (par.set j ((i : ℕ) : ℤ), conn.set j true)
      | none => primSteps pos k (par, conn)

def lowerChars (s : String) : List Char := s.data.map Char.toLower

def leadMatch : List Char → List Char → Bool
  | [], _ => true
  | _ :: _, [] => false
  | a :: as, b :: bs => decide (a = b) && leadMatch as bs

def hasSub (needle : List Char) : List Char → Bool
  | [] => leadMatch needle []
  | b :: bs => leadMatch needle (b :: bs) || hasSub needle bs

/-- Root selection: the first group whose lowered name contains `"floor"`,
else index 0; `none` models the source's falsy `bone_names`. -/
def findFloorIdx (names : List String) : ℕ :=
  match names.enum.find? fun p => hasSub "floor".data (lowerChars p.2) with
  | some (i, _) => i
  | none => 0

/-- `infer_hierarchy_mst`: the symmetry-aware Prim construction over the
group centroids; `parents[j] = i` when edge `(i, j)` was picked, `-1` for
the root and for nodes no candidate edge reached. -/
def infer_hierarchy_mst (centroids : List Pt) (bone_names : Option (List String)) :
    List ℤ :=
  let n := centroids.length
  if n ≤ 1 then List.replicate n (-1)
  else
    let root := match bone_names with
      | some names => findFloorIdx names
      | none => 0
    (primSteps centroids (n - 1)
      (List.replicate n (-1), (List.replicate n false).set root true)).1

/-- No parent assignment crosses the symmetry plane: whenever `parents[j]`
is the node `i`, the edge from centroid `i` to centroid `j` does not cross. -/
def noCrossAssignments (pos : List Pt) (parents : List ℤ) : Prop :=
  ∀ j i, parents.get? j = some ((i : ℕ) : ℤ) →
    ¬ crossesSym (pos.getD i (0, 0, 0)) (pos.getD j (0, 0, 0))

/-- Two mirrored two-bone limb chains and nothing else: nodes 0, 1 on the
`+x` side, nodes 2, 3 mirrored on the `-x` side. -/
def twoChainOnly : List Pt := [(1, 0, 0), (2, 0, 0), (-1, 0, 0), (-2, 0, 0)]

/-- The synthetic mirrored-limb scenario with a near-center root: node 0 at
the center, nodes 1, 2 the `+x` chain, nodes 3, 4 the mirrored `-x` chain. -/
def mirroredLimbScenario : List Pt :=
  [(0, 0, 0), (1, 0, 0), (2, 0, 0), (-1, 0, 0), (-2, 0, 0)]

/-! ## BinaryLayoutCodec record types (src/core/core.py) and the
validate/parse pipeline of `parse_3df` -/

/-- A face record (`FACE_DTYPE`): uint32 vertex index triple, uint32
per-corner texel coordinate triples, uint16 flags, and the preserved legacy
fields `dmask`, `distant`, `next`, `group`, `reserv`. -/
structure Face where
  v : ℕ × ℕ × ℕ
  u_tex : ℕ × ℕ × ℕ
  v_tex : ℕ × ℕ × ℕ
  flags : ℕ
  dmask : ℕ
  distant : ℕ
  next : ℕ
  group : ℕ
  reserv : List ℕ
deriving DecidableEq

/-- A vertex record (`VERTEX_DTYPE`): float32 coordinate triple (modelled
over `ℚ`), uint16 `owner` and `hide`. -/
structure Vertex where
  coord : ℚ × ℚ × ℚ
  owner : ℕ
  hide : ℕ
deriving DecidableEq

/-- A 3DF header (`HEADER_DTYPE`): four uint32 counts. -/
structure Header where
  vertex_count : ℕ
  face_count : ℕ
  bone_count : ℕ
  texture_size : ℕ
deriving DecidableEq

def map3 (f : ℕ → ℕ) (t : ℕ × ℕ × ℕ) : ℕ × ℕ × ℕ := (f t.1, f t.2.1, f t.2.2)

def any3 (p : ℕ → Bool) (t : ℕ × ℕ × ℕ) : Bool := p t.1 || p t.2.1 || p t.2.2

def count3 (p : ℕ → Bool) (t : ℕ × ℕ × ℕ) : ℕ :=
  (if p t.1 then 1 else 0) + (if p t.2.1 then 1 else 0) + (if p t.2.2 then 1 else 0)

def rev3 (t : ℕ × ℕ × ℕ) : ℕ × ℕ × ℕ := (t.2.2, t.2.1, t.1)

/-- True on a face vertex index the validator treats as out of range.  The
`idx < 0` arm of the source cannot fire on the uint32 field. -/
def faceBadIdx (vertex_count : ℕ) (i : ℕ) : Bool := decide (vertex_count ≤ i)

/-- The repair `np.clip(faces['v'][bad], 0, vertex_count - 1)` applied to the
bad entries of one face's index triple. -/
def clampFaceIdx (vertex_count : ℕ) (f : Face) : Face :=
  { f with
    v := map3 (fun i => if faceBadIdx vertex_count i then min i (vertex_count - 1) else i) f.v }

/-- Degenerate face test `(v1 == v2) | (v2 == v3) | (v1 == v3)`. -/
def degenFace (f : Face) : Bool :=
  decide (f.v.1 = f.v.2.1) || decide (f.v.2.1 = f.v.2.2) || decide (f.v.1 = f.v.2.2)

/-- `validate_3df_header` (src/parsers/validate_3df.py lines 26-85): the
count and texture bound checks in source order, the advisory warnings, and
the file-size check against the size the header's counts imply.  The
negative-value check on uint32 fields is vacuous and omitted.  `file_size`
is the on-disk byte count (`os.path.getsize`). -/
def validate_3df_header (h : Header) (file_size : ℕ) (w : List Warning) :
    Except Err (List Warning) :=
  if h.vertex_count = 0 ∨ h.face_count = 0 then .error .nonPositiveCounts
  else if 2048 < h.vertex_count then .error (.vertexCountTooLarge h.vertex_count)
  else
    let w := if 1024 < h.vertex_count then w ++ [Warning.highVertexCount h.vertex_count] else w
    if 2048 < h.face_count then .error (.faceCountTooLarge h.face_count)
    else
      let w := if 1024 < h.face_count then w ++ [Warning.highFaceCount h.face_count] else w
      if 2048 < h.bone_count then .error (.boneCountTooLarge h.bone_count)
      else
        let w := if 1024 < h.bone_count then w ++ [Warning.highBoneCount h.bone_count] else w
        if 131072 < h.texture_size then .error (.textureTooLarge h.texture_size)
        else if h.texture_size % 512 ≠ 0 then .error (.textureNotAligned h.texture_size)
        else
          let texture_height := h.texture_size / 512
          let w := if 512 < texture_height then
              w ++ [Warning.unusualTextureHeight texture_height] else w
          let expected_size := 16 + h.vertex_count * 16 + h.face_count * 64 +
            h.bone_count * 48 + h.texture_size
          if file_size < expected_size then .error (.fileTooSmall expected_size file_size)
          else if expected_size < file_size then
            .ok (w ++ [Warning.extraBytes (file_size - expected_size)])
          else .ok w

/-- `validate_3df_faces` (src/parsers/validate_3df.py lines 116-167): count
check, vertex-index clamping with warning, degenerate-face report, U and V
texel clipping with warnings, unknown-flag-bit report (known mask `0x80FF`,
so the residual is `flags & 0x7F00` on the uint16 field), and the
unused-field reports.  Stages run in source order on the repaired array. -/
def validate_3df_faces (faces : List Face) (face_count vertex_count texture_height : ℕ)
    (w : List Warning) : Except Err (List Face × List Warning) :=
  if faces.length ≠ face_count then .error (.faceCountMismatch faces.length face_count)
  else
    let p1 :=
      if faces.any fun f => any3 (faceBadIdx vertex_count) f.v then
        (faces.map (clampFaceIdx vertex_count),
          w ++ [Warning.faceIdxClamped
            ((faces.map fun f => count3 (faceBadIdx vertex_count) f.v).sum)])
      else (faces, w)
    let p2 :=
      if p1.1.any degenFace then
        (p1.1, p1.2 ++ [Warning.degenerateFaces (p1.1.filter degenFace).length])
      else p1
    let badU : ℕ → Bool := fun u => decide (255 < u)
    let p3 :=
      if p2.1.any fun f => any3 badU f.u_tex then
        (p2.1.map fun f => { f with u_tex := map3 (fun u => min u 255) f.u_tex },
          p2.2 ++ [Warning.uCoordsClipped ((p2.1.map fun f => count3 badU f.u_tex).sum)])
      else p2
    let maxV := texture_height - 1
    let badV : ℕ → Bool := fun vt => decide (maxV < vt)
    let p4 :=
      if p3.1.any fun f => any3 badV f.v_tex then
        (p3.1.map fun f => { f with v_tex := map3 (fun vt => min vt maxV) f.v_tex },
          p3.2 ++ [Warning.vCoordsClipped ((p3.1.map fun f => count3 badV f.v_tex).sum)])
      else p3
    let unknowns := (p4.1.map fun f => f.flags &&& 0x7F00).filter fun u => decide (u ≠ 0)
    let p5 :=
      if 0 < unknowns.length then
        (p4.1, p4.2 ++ [Warning.unknownFlagBits unknowns.length (unknowns.headD 0)])
      else p4
    let countDmask := (p5.1.filter fun f => decide (f.dmask ≠ 0)).length
    let p6 := if 0 < countDmask then
        (p5.1, p5.2 ++ [Warning.nonzeroField "dmask" countDmask]) else p5
    let countDistant := (p6.1.filter fun f => decide (f.distant ≠ 0)).length
    let p7 := if 0 < countDistant then
        (p6.1, p6.2 ++ [Warning.nonzeroField "distant" countDistant]) else p6
    let countNext := (p7.1.filter fun f => decide (f.next ≠ 0)).length
    let p8 := if 0 < countNext then
        (p7.1, p7.2 ++ [Warning.nonzeroField "next" countNext]) else p7
    let countGroup := (p8.1.filter fun f => decide (f.group ≠ 0)).length
    let p9 := if 0 < countGroup then
        (p8.1, p8.2 ++ [Warning.nonzeroField "group" countGroup]) else p8
    let p10 := if p9.1.any fun f => f.reserv.any fun r => decide (r ≠ 0) then
        (p9.1, p9.2 ++ [Warning.nonzeroReserv]) else p9
    .ok p10

/-- `validate_3df_vertices` (src/parsers/validate_3df.py lines 87-114): count
check, the `hide` report, and owner clamping — owners `≥ bone_count` clamp to
0 with a warning when bones exist; with no bones all owners are zeroed with a
warning when any was non-zero.  The NaN/Inf coordinate check cannot fire in
the `ℚ` model of float payloads and is omitted. -/
def validate_3df_vertices (vertices : List Vertex) (vertex_count bone_count : ℕ)
    (w : List Warning) : Except Err (List Vertex × List Warning) :=
  if vertices.length ≠ vertex_count then
    .error (.vertexCountMismatch vertices.length vertex_count)
  else
    let w := if vertices.any fun v => decide (v.hide ≠ 0) then
        w ++ [Warning.nonzeroHide (vertices.filter fun v => decide (v.hide ≠ 0)).length]
      else w
    if 0 < bone_count then
      if vertices.any fun v => decide (bone_count ≤ v.owner) then
        .ok (vertices.map fun v => if bone_count ≤ v.owner then { v with owner := 0 } else v,
          w ++ [Warning.invalidOwner
            (vertices.filter fun v => decide (bone_count ≤ v.owner)).length])
      else .ok (vertices, w)
    else
      if vertices.any fun v => decide (v.owner ≠ 0) then
        .ok (vertices.map fun v => { v with owner := 0 }, w ++ [Warning.ownersZeroed])
      else .ok (vertices, w)

/-- `validate_3df_texture` (src/parsers/validate_3df.py lines 232-255):
length check and the advisory warnings.  The alpha and RGB range checks are
transcribed exactly as in the source; on the extracted bit fields they can
never fire.  The all-zero advisory fires whenever no word is non-zero —
including the empty texture of a `texture_size = 0` file. -/
def validate_3df_texture (texture_raw : List ℕ) (texture_size : ℕ) (w : List Warning) :
    Except Err (List ℕ × List Warning) :=
  if texture_raw.length ≠ texture_size / 2 then
    .error (.textureLengthMismatch texture_raw.length (texture_size / 2))
  else
    let w := if texture_raw.all fun x =>
        decide (((x >>> 15) &&& 1) = 0) || decide (((x >>> 15) &&& 1) = 1) then w
      else w ++ [Warning.alphaBitsUnexpected]
    let w := if texture_raw.any fun x =>
        decide (31 < (x >>> 10) &&& 31) || decide (31 < (x >>> 5) &&& 31) ||
          decide (31 < x &&& 31) then w ++ [Warning.rgbOutOfRange]
      else w
    let w := if texture_raw.any fun x => decide (x ≠ 0) then w
      else w ++ [Warning.textureAllZero]
    .ok (texture_raw, w)

/-- A 3DF file as handed to the validators: header fields, the actual
on-disk byte size, and the decoded record arrays.  The byte-level
`np.fromfile` reads are abstracted: the file supplies its records directly
and `file_size` drives the header's size check. -/
structure File3DF where
  header : Header
  file_size : ℕ
  faces : List Face
  vertices : List Vertex
  bone_parents : List ℤ
  texture_words : List ℕ
deriving DecidableEq

/-- The in-memory model `parse_3df` returns.  The derived per-corner UV float
array and the bone-name list of the source are omitted: they are computed
from the returned records and raise nothing. -/
structure Parsed3DF where
  faces : List Face
  vertices : List Vertex
  bone_parents : List ℤ
  texture : List Pixel
  texture_height : ℕ
  warnings : List Warning
deriving DecidableEq

/-- Winding/UV reversal applied by `parse_3df_faces` under the default
`flip_handedness=True`: the vertex index triple and both texel triples are
reversed together. -/
def flipFace (f : Face) : Face :=
  { f with v := rev3 f.v, u_tex := rev3 f.u_tex, v_tex := rev3 f.v_tex }

/-- `parse_3df` with `validate=True` (src/parsers/parse_3df.py lines
124-155): header validation, face decode (handedness flip) and validation,
vertex validation, bone validation, texture decode and validation, in source
order.  Any raise aborts the decode and no partial model is returned. -/
def parse_3df (f : File3DF) (flip_handedness : Bool) : Except Err Parsed3DF := do
  let texture_height := f.header.texture_size / 512
  let w ← validate_3df_header f.header f.file_size []
  let faces0 := if flip_handedness then f.faces.map flipFace else f.faces
  let (faces, w) ← validate_3df_faces faces0 f.header.face_count f.header.vertex_count
    texture_height w
  let (vertices, w) ← validate_3df_vertices f.vertices f.header.vertex_count
    f.header.bone_count w
  let (parents, w) ← validate_3df_bones_parents f.bone_parents f.header.bone_count w
  let (texture, texture_raw) ← parse_3df_texture f.texture_words f.header.texture_size
    texture_height
  let (_, w) ← validate_3df_texture texture_raw f.header.texture_size w
  return { faces := faces, vertices := vertices, bone_parents := parents,
           texture := texture, texture_height := texture_height, warnings := w }

/-- Range validity of a parent array: every entry is `-1` or in
`[0, bone_count)` with `bone_count` the array length. -/
def RangeValid (ps : List ℤ) : Prop :=
  ∀ p ∈ ps, p = -1 ∨ (0 ≤ p ∧ p < (ps.length : ℤ))

/-- Pointwise refinement: `a` equals `b` except for entries rewritten to `-1`. -/
def refines (a b : List ℤ) : Prop :=
  a.length = b.length ∧ ∀ i, a.get? i = b.get? i ∨ a.get? i = some (-1)

/-! ### Helper lemmas -/

theorem ratTrunc_of_nonneg {q : ℚ} (h : 0 ≤ q) : ratTrunc q = ⌊q⌋ := by
  simp [ratTrunc, h]

theorem listMin_eq_none {l : List ℕ} : listMin l = none ↔ l = [] := by
  cases l with
  | nil => simp [listMin]
  | cons a l =>
      simp only [listMin]
      cases listMin l <;> simp

theorem listMin_eq_some_iff {l : List ℕ} {m : ℕ} :
    listMin l = some m → m ∈ l ∧ ∀ x ∈ l, m ≤ x := by
  induction l generalizing m with
  | nil => intro h; simp [listMin] at h
  | cons a l ih =>
      intro h
      cases hl : listMin l with
      | none =>
          rw [listMin, hl] at h
          simp only [Option.some.injEq] at h
          have hnil : l = [] := listMin_eq_none.mp hl
          subst hnil
          subst h
          simp
      | some k =>
          rw [listMin, hl] at h
          simp only [Option.some.injEq] at h
          have hk := ih hl
          constructor
          · rcases le_total a k with hak | hak
            · have : m = a := by omega
              subst this; exact List.mem_cons_self _ _
            · have : m = k := by omega
              subst this; exact List.mem_cons_of_mem _ hk.1
          · intro x hx
            rcases List.mem_cons.mp hx with rfl | hx
            · omega
            · have := hk.2 x hx
              omega

theorem listMin_map_succ (l : List ℕ) :
    listMin (l.map (· + 1)) = (listMin l).map (· + 1) := by
  induction l with
  | nil => simp [listMin]
  | cons a l ih =>
      simp only [List.map_cons, listMin, ih]
      cases listMin l with
      | none => simp
      | some m => simp [Nat.succ_min_succ]

theorem splitRows_length (w : ℕ) : ∀ (h : ℕ) (l : List α), (splitRows w h l).length = h := by
  intro h
  induction h with
  | zero => intro l; rfl
  | succ h ih => intro l; simp [splitRows, ih]

theorem splitRows_row_length {w : ℕ} : ∀ {h : ℕ} {l : List α}, l.length = w * h →
    ∀ r ∈ splitRows w h l, r.length = w := by
  intro h
  induction h with
  | zero => intro l _ r hr; simp [splitRows] at hr
  | succ h ih =>
      intro l hl r hr
      rw [Nat.mul_succ] at hl
      rcases List.mem_cons.mp hr with rfl | hr
      · rw [List.length_take]
        omega
      · exact ih (by rw [List.length_drop]; omega) r hr

theorem splitRows_flatten {w : ℕ} : ∀ {h : ℕ} {l : List α}, l.length = w * h →
    (splitRows w h l).flatten = l := by
  intro h
  induction h with
  | zero =>
      intro l hl
      have : l = [] := List.length_eq_zero.mp (by omega)
      simp [splitRows, this]
  | succ h ih =>
      intro l hl
      rw [Nat.mul_succ] at hl
      simp only [splitRows, List.flatten_cons]
      rw [ih (l := List.drop w l) (by rw [List.length_drop]; omega), List.take_append_drop]

theorem splitRows_of_flatten {w : ℕ} : ∀ (rows : List (List α)),
    (∀ r ∈ rows, r.length = w) → splitRows w rows.length rows.flatten = rows := by
  intro rows
  induction rows with
  | nil => intro _; rfl
  | cons r rows ih =>
      intro hw
      have hr : r.length = w := hw r (List.mem_cons_self _ _)
      simp only [List.length_cons, List.flatten_cons, splitRows]
      congr 1
      · exact List.take_left' hr
      · rw [List.drop_left' hr]
        exact ih fun s hs => hw s (List.mem_cons_of_mem _ hs)

theorem flipRows_flipRows {w h : ℕ} {l : List α} (hl : l.length = w * h) :
    flipRows h w (flipRows h w l) = l := by
  unfold flipRows
  have hlen : ((splitRows w h l).reverse).length = h := by
    rw [List.length_reverse, splitRows_length]
  have hrow : ∀ r ∈ (splitRows w h l).reverse, r.length = w := fun r hr =>
    splitRows_row_length hl r (List.mem_reverse.mp hr)
  have hsj : splitRows w h (((splitRows w h l).reverse).flatten) =
      (splitRows w h l).reverse := by
    have := splitRows_of_flatten ((splitRows w h l).reverse) hrow
    rwa [hlen] at this
  rw [hsj, List.reverse_reverse, splitRows_flatten hl]

theorem fields_recombine {x : ℕ} (hx : x < 32768) :
    ((((x >>> 10) &&& 31) <<< 10) ||| (((x >>> 5) &&& 31) <<< 5)) ||| (x &&& 31) = x := by
  have h31 : (31 : ℕ) = 2 ^ 5 - 1 := by norm_num
  rw [h31, Nat.and_pow_two_sub_one_eq_mod, Nat.and_pow_two_sub_one_eq_mod,
      Nat.and_pow_two_sub_one_eq_mod, Nat.shiftRight_eq_div_pow, Nat.shiftRight_eq_div_pow,
      Nat.shiftLeft_eq, Nat.shiftLeft_eq, Nat.or_assoc]
  have hC : x % 2 ^ 5 < 2 ^ 5 := Nat.mod_lt _ (by norm_num)
  have hb : x / 2 ^ 5 % 2 ^ 5 < 2 ^ 5 := Nat.mod_lt _ (by norm_num)
  rw [mul_comm (x / 2 ^ 5 % 2 ^ 5) (2 ^ 5 : ℕ), ← Nat.mul_add_lt_is_or hC (x / 2 ^ 5 % 2 ^ 5)]
  have hBC : 2 ^ 5 * (x / 2 ^ 5 % 2 ^ 5) + x % 2 ^ 5 < 2 ^ 10 := by
    have h5 : (2 : ℕ) ^ 5 = 32 := by norm_num
    have h10 : (2 : ℕ) ^ 10 = 1024 := by norm_num
    rw [h5, h10]
    omega
  rw [mul_comm (x / 2 ^ 10 % 2 ^ 5) (2 ^ 10 : ℕ),
      ← Nat.mul_add_lt_is_or hBC (x / 2 ^ 10 % 2 ^ 5)]
  have h5 : (2 : ℕ) ^ 5 = 32 := by norm_num
  have h10 : (2 : ℕ) ^ 10 = 1024 := by norm_num
  rw [h5, h10]
  omega

theorem clip31_npRound_id {v : ℕ} (hv : v ≤ 31) :
    clip31 (npRound (((v : ℕ) : ℚ) / 31 * 31)) = v := by
  have hcast : ((v : ℕ) : ℚ) / 31 * 31 = ((v : ℕ) : ℚ) := by
    field_simp
  rw [hcast]
  have hnr : npRound ((v : ℚ)) = (v : ℤ) := by
    unfold npRound
    rw [Int.fract_natCast, Int.floor_natCast]
    norm_num
  rw [hnr]
  unfold clip31
  rw [min_eq_right (by exact_mod_cast hv), max_eq_right (by positivity)]
  simp

theorem packPixel_unpackWord {x : ℕ} (hx : x < 32768) :
    packPixel (unpackWord x) = x := by
  unfold packPixel unpackWord
  simp only
  rw [clip31_npRound_id (Nat.and_le_right), clip31_npRound_id (Nat.and_le_right),
      clip31_npRound_id (Nat.and_le_right)]
  rw [Nat.zero_shiftLeft, Nat.zero_or]
  exact fields_recombine hx

theorem pstep_neg_one (ps : List ℤ) : pstep ps (-1) = -1 := by
  unfold pstep
  rw [dif_neg]
  rintro ⟨h0, -⟩
  omega

theorem iterWalk_succ' (ps : List ℤ) (x : ℤ) (k : ℕ) :
    iterWalk ps x (k + 1) = pstep ps (iterWalk ps x k) := by
  unfold iterWalk
  rw [Function.iterate_succ_apply']

theorem iterWalk_neg_one (ps : List ℤ) (k : ℕ) : iterWalk ps (-1) k = -1 := by
  induction k with
  | zero => rfl
  | succ k ih =>
      have h := iterWalk_succ' ps (-1) k
      rw [h, ih, pstep_neg_one]

theorem pstep_get? {ps : List ℤ} {z : ℤ} (h0 : 0 ≤ z) (hlt : z.toNat < ps.length) :
    ps.get? z.toNat = some (pstep ps z) := by
  unfold pstep
  rw [dif_pos ⟨h0, hlt⟩]
  exact List.get?_eq_get hlt

theorem pstep_range {ps : List ℤ} (hR : RangeValid ps) (x : ℤ)
    (hne : pstep ps x ≠ -1) : 0 ≤ pstep ps x ∧ pstep ps x < (ps.length : ℤ) := by
  unfold pstep at *
  by_cases h : 0 ≤ x ∧ x.toNat < ps.length
  · rw [dif_pos h] at hne ⊢
    rcases hR _ (ps.get_mem _ _) with h1 | h1
    · exact absurd h1 hne
    · exact h1
  · rw [dif_neg h] at hne
    exact absurd rfl hne

theorem exists_cycle_of_stuck (ps : List ℤ) (hR : RangeValid ps) (i : ℕ)
    (hi : i < ps.length)
    (hno : ∀ k, k ≤ ps.length → iterWalk ps ((i : ℕ) : ℤ) k ≠ -1) :
    ∃ c m, 1 ≤ m ∧ m ≤ ps.length ∧ 0 ≤ c ∧ c < (ps.length : ℤ) ∧
      iterWalk ps c m = c := by
  set n := ps.length with hn
  have hrange : ∀ j, j ≤ n →
      0 ≤ iterWalk ps ((i : ℕ) : ℤ) j ∧ iterWalk ps ((i : ℕ) : ℤ) j < (n : ℤ) := by
    intro j hj
    cases j with
    | zero =>
        constructor
        · exact Int.natCast_nonneg i
        · show ((i : ℕ) : ℤ) < (n : ℤ)
          omega
    | succ j =>
        have hstep := iterWalk_succ' ps ((i : ℕ) : ℤ) j
        have hne := hno (j + 1) hj
        rw [hstep] at hne ⊢
        exact pstep_range hR _ hne
  have hnpos : 0 < n := by omega
  have hcard : Fintype.card (Fin n) < Fintype.card (Fin (n + 1)) := by simp
  obtain ⟨a, b, hab, heq⟩ := Fintype.exists_ne_map_eq_of_card_lt
    (fun j : Fin (n + 1) =>
      (⟨(iterWalk ps ((i : ℕ) : ℤ) j.val).toNat, by
        have := hrange j.val (by omega)
        omega⟩ : Fin n)) hcard
  have heq' : (iterWalk ps ((i : ℕ) : ℤ) a.val).toNat =
      (iterWalk ps ((i : ℕ) : ℤ) b.val).toNat := congrArg Fin.val heq
  have hvals : iterWalk ps ((i : ℕ) : ℤ) a.val = iterWalk ps ((i : ℕ) : ℤ) b.val := by
    have ha := hrange a.val (by omega)
    have hb := hrange b.val (by omega)
    omega
  rcases Ne.lt_or_lt (fun h => hab (Fin.ext h)) with hlt | hlt
  · refine ⟨iterWalk ps ((i : ℕ) : ℤ) a.val, b.val - a.val, by omega, by omega,
      (hrange a.val (by omega)).1, (hrange a.val (by omega)).2, ?_⟩
    have hadd : (b.val - a.val) + a.val = b.val := by omega
    have := Function.iterate_add_apply (pstep ps) (b.val - a.val) a.val ((i : ℕ) : ℤ)
    rw [hadd] at this
    unfold iterWalk at hvals ⊢
    rw [← this, ← hvals]
  · refine ⟨iterWalk ps ((i : ℕ) : ℤ) b.val, a.val - b.val, by omega, by omega,
      (hrange b.val (by omega)).1, (hrange b.val (by omega)).2, ?_⟩
    have hadd : (a.val - b.val) + b.val = a.val := by omega
    have := Function.iterate_add_apply (pstep ps) (a.val - b.val) b.val ((i : ℕ) : ℤ)
    rw [hadd] at this
    unfold iterWalk at hvals ⊢
    rw [← this, hvals]

theorem iterWalk_mod (ps : List ℤ) (c : ℤ) (m : ℕ) (hm : 0 < m)
    (hc : iterWalk ps c m = c) : ∀ j, iterWalk ps c j = iterWalk ps c (j % m) := by
  intro j
  induction j using Nat.strong_induction_on with
  | _ j ih =>
      by_cases hj : j < m
      · rw [Nat.mod_eq_of_lt hj]
      · push_neg at hj
        have hdecomp : j = (j - m) + m := by omega
        have hiter : iterWalk ps c j = iterWalk ps c (j - m) := by
          conv_lhs => rw [hdecomp]
          unfold iterWalk
          rw [Function.iterate_add_apply]
          unfold iterWalk at hc
          rw [hc]
        rw [hiter, ih (j - m) (by omega)]
        congr 1
        conv_rhs => rw [hdecomp]
        rw [Nat.add_mod_right]

/-- The forward orbit of a cycle node, as a finite set. -/
def orbit (ps : List ℤ) (c : ℤ) (m : ℕ) : Finset ℤ :=
  (Finset.range m).image (iterWalk ps c)

theorem orbit_self {ps : List ℤ} {c : ℤ} {m : ℕ} (hm : 0 < m) :
    c ∈ orbit ps c m :=
  Finset.mem_image.mpr ⟨0, Finset.mem_range.mpr hm, rfl⟩

theorem orbit_card_le {ps : List ℤ} {c : ℤ} {m : ℕ} : (orbit ps c m).card ≤ m :=
  le_trans Finset.card_image_le (by simp)

theorem orbit_closed {ps : List ℤ} {c : ℤ} {m : ℕ} (hm : 0 < m)
    (hc : iterWalk ps c m = c) :
    ∀ z ∈ orbit ps c m, pstep ps z ∈ orbit ps c m := by
  intro z hz
  rcases Finset.mem_image.mp hz with ⟨j, hj, rfl⟩
  have : pstep ps (iterWalk ps c j) = iterWalk ps c (j + 1) :=
    (iterWalk_succ' ps c j).symm
  rw [this, iterWalk_mod ps c m hm hc (j + 1)]
  exact Finset.mem_image.mpr ⟨(j + 1) % m, Finset.mem_range.mpr (Nat.mod_lt _ hm), rfl⟩

theorem orbit_ne_neg_one {ps : List ℤ} {c : ℤ} {m : ℕ} (hm : 0 < m)
    (hc : iterWalk ps c m = c) (hc0 : 0 ≤ c) :
    ∀ z ∈ orbit ps c m, z ≠ -1 := by
  intro z hz hzneg
  rcases Finset.mem_image.mp hz with ⟨j, hj, hje⟩
  have hj' : j < m := Finset.mem_range.mp hj
  have : iterWalk ps c m = -1 := by
    have hadd : m = (m - j) + j := by omega
    rw [hadd]
    unfold iterWalk
    rw [Function.iterate_add_apply]
    have : (pstep ps)^[j] c = iterWalk ps c j := rfl
    rw [this, hje, hzneg]
    exact iterWalk_neg_one ps (m - j)
  rw [hc] at this
  omega

theorem orbit_range {ps : List ℤ} {c : ℤ} {m : ℕ} (hR : RangeValid ps) (hm : 0 < m)
    (hc : iterWalk ps c m = c) (hc0 : 0 ≤ c) (hcn : c < (ps.length : ℤ)) :
    ∀ z ∈ orbit ps c m, 0 ≤ z ∧ z < (ps.length : ℤ) := by
  intro z hz
  rcases Finset.mem_image.mp hz with ⟨j, hj, hje⟩
  cases j with
  | zero => rw [← hje]; exact ⟨hc0, hcn⟩
  | succ j =>
      have hne : z ≠ -1 := orbit_ne_neg_one hm hc hc0 z hz
      rw [← hje] at hne ⊢
      rw [iterWalk_succ'] at hne ⊢
      exact pstep_range hR _ hne

theorem orbit_pstep_ne_neg_one {ps : List ℤ} {c : ℤ} {m : ℕ} (hm : 0 < m)
    (hc : iterWalk ps c m = c) (hc0 : 0 ≤ c) :
    ∀ z ∈ orbit ps c m, pstep ps z ≠ -1 := fun z hz =>
  orbit_ne_neg_one hm hc hc0 _ (orbit_closed hm hc z hz)

theorem refines_trans {a b c : List ℤ} (hab : refines a b) (hbc : refines b c) :
    refines a c := by
  refine ⟨hab.1.trans hbc.1, fun i => ?_⟩
  rcases hab.2 i with h | h
  · rw [h]; exact hbc.2 i
  · exact Or.inr h

theorem breakWalk_set_or_id (ps : List ℤ) :
    ∀ (fuel : ℕ) (node : ℤ) (seen : List ℤ),
      breakWalk ps fuel node seen = ps ∨
      ∃ k, breakWalk ps fuel node seen = ps.set k (-1) := by
  intro fuel
  induction fuel with
  | zero => intro node seen; exact Or.inl rfl
  | succ fuel ih =>
      intro node seen
      unfold breakWalk
      by_cases hseen : node ∈ seen
      · rw [if_pos hseen]; exact Or.inr ⟨node.toNat, rfl⟩
      · rw [if_neg hseen]
        by_cases hneg : node = -1
        · rw [if_pos hneg]; exact Or.inl rfl
        · rw [if_neg hneg]; exact ih _ _

theorem set_neg_one_refines (ps : List ℤ) (k : ℕ) : refines (ps.set k (-1)) ps := by
  refine ⟨List.length_set ps k (-1) ▸ rfl, fun i => ?_⟩
  by_cases hik : i = k
  · subst hik
    by_cases hlt : i < ps.length
    · right
      rw [List.get?_eq_getElem?, List.getElem?_set_self (by simpa using hlt)]
    · left
      rw [List.get?_eq_getElem?, List.get?_eq_getElem?]
      rw [List.getElem?_eq_none (by simpa using hlt),
        List.getElem?_eq_none (by omega)]
  · left
    rw [List.get?_eq_getElem?, List.get?_eq_getElem?, List.getElem?_set_ne (fun h => hik h.symm)]

theorem breakWalk_refines (ps : List ℤ) (fuel : ℕ) (node : ℤ) (seen : List ℤ) :
    refines (breakWalk ps fuel node seen) ps := by
  rcases breakWalk_set_or_id ps fuel node seen with h | ⟨k, h⟩
  · rw [h]; exact ⟨rfl, fun i => Or.inl rfl⟩
  · rw [h]; exact set_neg_one_refines ps k

theorem foldl_break_refines :
    ∀ (l : List ℕ) (a : List ℤ),
      refines (l.foldl (fun acc i => breakWalk acc (acc.length + 1) ((i : ℕ) : ℤ) []) a) a := by
  intro l
  induction l with
  | nil => intro a; exact ⟨rfl, fun i => Or.inl rfl⟩
  | cons j l ih =>
      intro a
      rw [List.foldl_cons]
      exact refines_trans (ih _) (breakWalk_refines a _ _ _)

theorem refines_rangeValid {a b : List ℤ} (h : refines a b) (hb : RangeValid b) :
    RangeValid a := by
  intro p hp
  rcases List.get_of_mem hp with ⟨i, hget⟩
  have hsome : a.get? i.val = some p := List.get?_eq_get i.isLt ▸ congrArg some hget
  rcases h.2 i.val with heq | heq
  · rw [heq] at hsome
    have hmem : p ∈ b := List.get?_mem hsome
    rcases hb p hmem with h1 | h1
    · exact Or.inl h1
    · exact Or.inr ⟨h1.1, by rw [h.1]; exact h1.2⟩
  · rw [heq] at hsome
    exact Or.inl (Option.some.inj hsome).symm

theorem filter_not_mem_cons_card {O : Finset ℤ} {node : ℤ} {seen : List ℤ}
    (hnode : node ∈ O) (hseen : node ∉ seen) :
    (O.filter (fun z => z ∉ node :: seen)).card < (O.filter (fun z => z ∉ seen)).card := by
  have hsub : O.filter (fun z => z ∉ node :: seen) =
      (O.filter (fun z => z ∉ seen)).erase node := by
    ext z
    simp only [Finset.mem_filter, Finset.mem_erase, List.mem_cons]
    constructor
    · rintro ⟨hz, hnot⟩
      push_neg at hnot
      exact ⟨hnot.1, hz, hnot.2⟩
    · rintro ⟨hne, hz, hnot⟩
      exact ⟨hz, by push_neg; exact ⟨hne, hnot⟩⟩
  rw [hsub]
  exact Finset.card_erase_lt_of_mem (Finset.mem_filter.mpr ⟨hnode, hseen⟩)

theorem walkRevisits_true (out : List ℤ) (c : ℤ) (m : ℕ) (hm : 0 < m)
    (hc : iterWalk out c m = c) (hc0 : 0 ≤ c) :
    ∀ (fuel : ℕ) (node : ℤ) (seen : List ℤ), node ∈ orbit out c m →
      ((orbit out c m).filter (fun z => z ∉ seen)).card < fuel →
      walkRevisits out fuel node seen = true := by
  intro fuel
  induction fuel with
  | zero => intro node seen _ hcard; omega
  | succ fuel ih =>
      intro node seen hnode hcard
      unfold walkRevisits
      by_cases hseen : node ∈ seen
      · rw [if_pos hseen]
      · rw [if_neg hseen, if_neg (orbit_ne_neg_one hm hc hc0 node hnode)]
        exact ih (pstep out node) (node :: seen) (orbit_closed hm hc node hnode)
          (by have := filter_not_mem_cons_card hnode hseen; omega)

theorem breakWalk_writes (a out : List ℤ) (c : ℤ) (m : ℕ) (hm : 0 < m)
    (hc : iterWalk out c m = c) (hc0 : 0 ≤ c) (hcn : c < (out.length : ℤ))
    (hR : RangeValid out) (hlen : a.length = out.length)
    (hagree : ∀ z ∈ orbit out c m, pstep a z = pstep out z) :
    ∀ (fuel : ℕ) (node : ℤ) (seen : List ℤ), node ∈ orbit out c m →
      ((orbit out c m).filter (fun z => z ∉ seen)).card < fuel →
      ∃ t, t ∈ orbit out c m ∧ (breakWalk a fuel node seen).get? t.toNat = some (-1) := by
  intro fuel
  induction fuel with
  | zero => intro node seen _ hcard; omega
  | succ fuel ih =>
      intro node seen hnode hcard
      unfold breakWalk
      by_cases hseen : node ∈ seen
      · rw [if_pos hseen]
        refine ⟨node, hnode, ?_⟩
        have hr := orbit_range hR hm hc hc0 hcn node hnode
        have hlt : node.toNat < a.length := by omega
        rw [List.get?_eq_getElem?, List.getElem?_set_self (by simpa using hlt)]
      · rw [if_neg hseen, if_neg (orbit_ne_neg_one hm hc hc0 node hnode)]
        rw [hagree node hnode]
        exact ih (pstep out node) (node :: seen) (orbit_closed hm hc node hnode)
          (by have := filter_not_mem_cons_card hnode hseen; omega)

/-! ## Claim C3 -/

/-- C3: every bone parent array the validator accepts (after cycle detection
and cycle-breaking repair) is a directed forest: following parent links from
any bone index reaches the virtual root `-1` within `bone_count` steps. -/
theorem bone_repair_acyclic (ps out : List ℤ) (bc : ℕ) (w w' : List Warning)
    (h : validate_3df_bones_parents ps bc w = .ok (out, w')) :
    ∀ i, i < out.length → ∃ k, k ≤ out.length ∧ iterWalk out ((i : ℕ) : ℤ) k = -1 := by
  unfold validate_3df_bones_parents at h
  by_cases hbc : ps.length ≠ bc
  · rw [if_pos hbc] at h; exact absurd h (by simp)
  · rw [if_neg hbc] at h
    push_neg at hbc
    by_cases hbad : (ps.filter fun p =>
        !(decide (p = -1) || (decide (0 ≤ p) && decide (p < (bc : ℤ))))).length ≠ 0
    · rw [if_pos hbad] at h; exact absurd h (by simp)
    · rw [if_neg hbad] at h
      push_neg at hbad
      have hRps : RangeValid ps := by
        intro p hp
        have hfil := List.length_eq_zero.mp hbad
        by_cases hcl : p = -1 ∨ (0 ≤ p ∧ p < (ps.length : ℤ))
        · exact hcl
        · exfalso
          push_neg at hcl
          have hmem : p ∈ ps.filter fun p =>
              !(decide (p = -1) || (decide (0 ≤ p) && decide (p < (bc : ℤ)))) := by
            rw [List.mem_filter]
            refine ⟨hp, ?_⟩
            have h1 : decide (p = -1) = false := by simpa using hcl.1
            rcases lt_or_le p 0 with h2 | h2
            · have h2' : decide (0 ≤ p) = false := by simpa using not_le.mpr h2
              simp [h1, h2']
            · have h3 : decide (p < (bc : ℤ)) = false := by
                simp only [decide_eq_false_iff_not, not_lt]
                have := hcl.2 h2
                omega
              simp [h1, h3]
          rw [hfil] at hmem
          exact absurd hmem (List.not_mem_nil p)
      by_cases hdet : detect_bone_cycles ps ≠ -1
      · -- repair branch
        rw [if_pos hdet] at h
        have hout : out = break_cycles ps := by
          have := congrArg (fun e => match e with
            | Except.ok (p : List ℤ × List Warning) => p.1
            | Except.error _ => []) h
          simpa using this.symm
        subst hout
        have href : refines (break_cycles ps) ps := foldl_break_refines _ ps
        have hRout : RangeValid (break_cycles ps) := refines_rangeValid href hRps
        have hlen : (break_cycles ps).length = ps.length := href.1
        intro i hi
        by_contra hno
        push_neg at hno
        obtain ⟨c, m, hm1, hmn, hcr0, hcrn, hcyc⟩ :=
          exists_cycle_of_stuck (break_cycles ps) hRout i hi fun k hk =>
            hno k hk
        -- split the repair loop at iteration c.toNat
        have htn : c.toNat ∈ List.range ps.length := by
          rw [List.mem_range]
          omega
        obtain ⟨s, t, hsplit⟩ := List.append_of_mem htn
        set step := fun (acc : List ℤ) (i : ℕ) =>
          breakWalk acc (acc.length + 1) ((i : ℕ) : ℤ) [] with hstep
        have hunfold : break_cycles ps =
            t.foldl step (step (s.foldl step ps) c.toNat) := by
          unfold break_cycles
          rw [hsplit, List.foldl_append, List.foldl_cons]
        set a := s.foldl step ps with ha
        have hrefa : refines a ps := foldl_break_refines s ps
        have hlena : a.length = ps.length := hrefa.1
        have hrefoa' : refines (break_cycles ps) (step a c.toNat) := by
          rw [hunfold]
          exact foldl_break_refines t _
        have hrefa'a : refines (step a c.toNat) a := breakWalk_refines a _ _ _
        have hrefoa : refines (break_cycles ps) a := refines_trans hrefoa' hrefa'a
        -- the final array agrees with `a` on orbit nodes
        have horbget : ∀ z ∈ orbit (break_cycles ps) c m,
            (break_cycles ps).get? z.toNat = some (pstep (break_cycles ps) z) := by
          intro z hz
          have hr := orbit_range hRout hm1 hcyc hcr0 hcrn z hz
          exact pstep_get? hr.1 (by omega)
        have hagree : ∀ z ∈ orbit (break_cycles ps) c m,
            pstep a z = pstep (break_cycles ps) z := by
          intro z hz
          have hr := orbit_range hRout hm1 hcyc hcr0 hcrn z hz
          have hgz := horbget z hz
          have hne : pstep (break_cycles ps) z ≠ -1 :=
            orbit_pstep_ne_neg_one hm1 hcyc hcr0 z hz
          have haz : a.get? z.toNat = (break_cycles ps).get? z.toNat := by
            rcases hrefoa.2 z.toNat with heq | heq
            · exact heq.symm
            · rw [heq] at hgz
              exact absurd (Option.some.inj hgz).symm hne
          have hlt : z.toNat < a.length := by omega
          have hlt2 : z.toNat < (break_cycles ps).length := by omega
          unfold pstep
          rw [dif_pos ⟨hr.1, hlt⟩, dif_pos ⟨hr.1, hlt2⟩]
          have h1 : a.get? z.toNat = some (a.get ⟨z.toNat, hlt⟩) := List.get?_eq_get hlt
          have h2 : (break_cycles ps).get? z.toNat =
              some ((break_cycles ps).get ⟨z.toNat, hlt2⟩) := List.get?_eq_get hlt2
          rw [h1, h2] at haz
          exact Option.some.inj haz
        -- run the breaking walk from c: it writes -1 at an orbit node
        have hcoft : ((c.toNat : ℕ) : ℤ) = c := by omega
        have hwrites := breakWalk_writes a (break_cycles ps) c m hm1 hcyc hcr0
          hcrn hRout (by omega) hagree
          (a.length + 1) ((c.toNat : ℕ) : ℤ) []
          (by rw [hcoft]; exact orbit_self hm1)
          (by
            have h1 : ((orbit (break_cycles ps) c m).filter (fun z => z ∉ ([] : List ℤ))).card ≤ m := by
              refine le_trans (Finset.card_le_card (Finset.filter_subset _ _)) orbit_card_le
            omega)
        obtain ⟨tz, htz, hwrite⟩ := hwrites
        -- but the final array never has -1 at an orbit node
        have hgz := horbget tz htz
        have hne : pstep (break_cycles ps) tz ≠ -1 :=
          orbit_pstep_ne_neg_one hm1 hcyc hcr0 tz htz
        rcases hrefoa'.2 tz.toNat with heq | heq
        · rw [show step a c.toNat = breakWalk a (a.length + 1) ((c.toNat : ℕ) : ℤ) [] from rfl]
            at heq
          rw [hwrite] at heq
          rw [heq] at hgz
          exact hne (Option.some.inj hgz).symm
        · rw [heq] at hgz
          exact hne (Option.some.inj hgz).symm
      · -- no cycle detected: the parent array is already acyclic
        rw [if_neg hdet] at h
        push_neg at hdet
        have hout : out = ps := by
          have := congrArg (fun e => match e with
            | Except.ok (p : List ℤ × List Warning) => p.1
            | Except.error _ => []) h
          simpa using this.symm
        subst hout
        intro i hi
        by_contra hno
        push_neg at hno
        obtain ⟨c, m, hm1, hmn, hcr0, hcrn, hcyc⟩ :=
          exists_cycle_of_stuck out hRps i hi fun k hk => hno k hk
        have hrev := walkRevisits_true out c m hm1 hcyc hcr0 (out.length + 1) c []
          (orbit_self hm1)
          (by
            have h1 : ((orbit out c m).filter (fun z => z ∉ ([] : List ℤ))).card ≤ m :=
              le_trans (Finset.card_le_card (Finset.filter_subset _ _)) orbit_card_le
            omega)
        have hfind : (List.range out.length).find?
            (fun i => walkRevisits out (out.length + 1) ((i : ℕ) : ℤ) []) = none := by
          unfold detect_bone_cycles at hdet
          cases hf : (List.range out.length).find?
              (fun i => walkRevisits out (out.length + 1) ((i : ℕ) : ℤ) []) with
          | none => rfl
          | some j =>
              rw [hf] at hdet
              exfalso
              have : ((j : ℕ) : ℤ) = -1 := hdet
              omega
        have := List.find?_eq_none.mp hfind c.toNat
          (List.mem_range.mpr (by omega))
        have hcoft : ((c.toNat : ℕ) : ℤ) = c := by omega
        rw [hcoft] at this
        exact this hrev

/-- C3 witness for `bone_repair_acyclic` on the two-bone cycle `[1, 0]`,
which the validator repairs to `[-1, 0]`. -/
theorem bone_repair_acyclic_witness :
    validate_3df_bones_parents [1, 0] 2 [] = .ok ([-1, 0], [Warning.boneCycle 0]) ∧
      (1 : ℕ) < ([-1, 0] : List ℤ).length ∧
      ∃ k, k ≤ ([-1, 0] : List ℤ).length ∧ iterWalk [-1, 0] ((1 : ℕ) : ℤ) k = -1 :=
  ⟨by rfl, by decide,
    bone_repair_acyclic [1, 0] [-1, 0] 2 [] [Warning.boneCycle 0] (by rfl) 1 (by decide)⟩

/-! ## Claim C5 -/

/-- C5: a file whose header-declared counts (counts within the tool limits
and an aligned texture size) imply more bytes than the file contains is
rejected by the header size check: `parse_3df` returns the truncation error
and no partial in-memory model. -/
theorem truncated_file_rejected (f : File3DF) (flip : Bool)
    (hv : 0 < f.header.vertex_count) (hf : 0 < f.header.face_count)
    (hv2 : f.header.vertex_count ≤ 2048) (hf2 : f.header.face_count ≤ 2048)
    (hb2 : f.header.bone_count ≤ 2048) (ht : f.header.texture_size ≤ 131072)
    (hal : f.header.texture_size % 512 = 0)
    (hsize : f.file_size < 16 + f.header.vertex_count * 16 + f.header.face_count * 64 +
      f.header.bone_count * 48 + f.header.texture_size) :
    parse_3df f flip = .error (.fileTooSmall
      (16 + f.header.vertex_count * 16 + f.header.face_count * 64 +
        f.header.bone_count * 48 + f.header.texture_size) f.file_size) := by
  have h1 : ¬(f.header.vertex_count = 0 ∨ f.header.face_count = 0) :=
    not_or.mpr ⟨by omega, by omega⟩
  have h2 : ¬(2048 < f.header.vertex_count) := by omega
  have h3 : ¬(2048 < f.header.face_count) := by omega
  have h4 : ¬(2048 < f.header.bone_count) := by omega
  have h5 : ¬(131072 < f.header.texture_size) := by omega
  have h6 : ¬(f.header.texture_size % 512 ≠ 0) := by omega
  have hh : validate_3df_header f.header f.file_size [] = .error (.fileTooSmall
      (16 + f.header.vertex_count * 16 + f.header.face_count * 64 +
        f.header.bone_count * 48 + f.header.texture_size) f.file_size) := by
    simp only [validate_3df_header, if_neg h1, if_neg h2, if_neg h3, if_neg h4,
      if_neg h5, if_neg h6, if_pos hsize]
  simp only [parse_3df, hh]
  rfl

/-- The truncated synthetic file of the C5 witness: counts declaring
3 vertices, 1 face, no bones and no texture (128 bytes implied) in a
100-byte file. -/
def truncated3DF : File3DF :=
  { header := { vertex_count := 3, face_count := 1, bone_count := 0, texture_size := 0 }
    file_size := 100
    faces := []
    vertices := []
    bone_parents := []
    texture_words := [] }

/-- C5 witness for `truncated_file_rejected` on `truncated3DF`. -/
theorem truncated_file_rejected_witness :
    0 < truncated3DF.header.vertex_count ∧ 0 < truncated3DF.header.face_count ∧
      truncated3DF.header.vertex_count ≤ 2048 ∧ truncated3DF.header.face_count ≤ 2048 ∧
      truncated3DF.header.bone_count ≤ 2048 ∧ truncated3DF.header.texture_size ≤ 131072 ∧
      truncated3DF.header.texture_size % 512 = 0 ∧
      truncated3DF.file_size < 16 + truncated3DF.header.vertex_count * 16 +
        truncated3DF.header.face_count * 64 + truncated3DF.header.bone_count * 48 +
        truncated3DF.header.texture_size ∧
      parse_3df truncated3DF true = .error (.fileTooSmall
        (16 + truncated3DF.header.vertex_count * 16 + truncated3DF.header.face_count * 64 +
          truncated3DF.header.bone_count * 48 + truncated3DF.header.texture_size)
        truncated3DF.file_size) :=
  ⟨by decide, by decide, by decide, by decide, by decide, by decide, by decide, by decide,
    truncated_file_rejected truncated3DF true (by decide) (by decide) (by decide) (by decide)
      (by decide) (by decide) (by decide) (by decide)⟩

/-! ## Claim C6 -/

/-- C6 counterexample: a bone parent index outside `{-1} ∪ [0, bone_count)`
is not treated as repairable — the validator returns an error (the source
raises `ValueError`), aborting the decode, instead of clamping it and
appending a warning. -/
theorem bone_parent_fatal_cex :
    validate_3df_bones_parents [5] 1 [] = .error (.invalidParentIndices 1) ∧
      ∀ out, validate_3df_bones_parents [5] 1 [] ≠ .ok out := by
  refine ⟨by rfl, fun out h => ?_⟩
  rw [show validate_3df_bones_parents [5] 1 [] = .error (.invalidParentIndices 1) from rfl] at h
  exact absurd h (by simp)

/-- C6 (amended): out-of-range vertex owner indices clamp to 0 and
out-of-range face vertex indices clamp to the nearest bound, each appending
one warning and never aborting the decode; but an out-of-range bone parent
index is fatal — `validate_3df_bones` raises instead of repairing. -/
theorem index_repair_policy
    (vs : List Vertex) (bc : ℕ) (w : List Warning)
    (fs : List Face) (vc th : ℕ) (w2 : List Warning)
    (ps : List ℤ) (bc2 : ℕ) (w3 : List Warning)
    (hbc : 0 < bc)
    (hhide : (vs.any fun v => decide (v.hide ≠ 0)) = false)
    (hobad : (vs.any fun v => decide (bc ≤ v.owner)) = true)
    (hfbad : (fs.any fun f => any3 (faceBadIdx vc) f.v) = true)
    (hdeg : ((fs.map (clampFaceIdx vc)).any degenFace) = false)
    (hu : ((fs.map (clampFaceIdx vc)).any fun f =>
      any3 (fun u => decide (255 < u)) f.u_tex) = false)
    (hvt : ((fs.map (clampFaceIdx vc)).any fun f =>
      any3 (fun vt => decide (th - 1 < vt)) f.v_tex) = false)
    (hflags : (((fs.map (clampFaceIdx vc)).map fun f => f.flags &&& 0x7F00).filter
      fun u => decide (u ≠ 0)).length = 0)
    (hdmask : ((fs.map (clampFaceIdx vc)).filter fun f => decide (f.dmask ≠ 0)).length = 0)
    (hdist : ((fs.map (clampFaceIdx vc)).filter fun f => decide (f.distant ≠ 0)).length = 0)
    (hnext : ((fs.map (clampFaceIdx vc)).filter fun f => decide (f.next ≠ 0)).length = 0)
    (hgroup : ((fs.map (clampFaceIdx vc)).filter fun f => decide (f.group ≠ 0)).length = 0)
    (hres : ((fs.map (clampFaceIdx vc)).any fun f =>
      f.reserv.any fun r => decide (r ≠ 0)) = false)
    (hpbad : (ps.filter fun p =>
      !(decide (p = -1) || (decide (0 ≤ p) && decide (p < (bc2 : ℤ))))).length ≠ 0)
    (hplen : ps.length = bc2) :
    validate_3df_vertices vs vs.length bc w =
      .ok (vs.map fun v => if bc ≤ v.owner then { v with owner := 0 } else v,
        w ++ [Warning.invalidOwner (vs.filter fun v => decide (bc ≤ v.owner)).length]) ∧
    validate_3df_faces fs fs.length vc th w2 =
      .ok (fs.map (clampFaceIdx vc),
        w2 ++ [Warning.faceIdxClamped
          ((fs.map fun f => count3 (faceBadIdx vc) f.v).sum)]) ∧
    validate_3df_bones_parents ps bc2 w3 = .error (.invalidParentIndices
      (ps.filter fun p =>
        !(decide (p = -1) || (decide (0 ≤ p) && decide (p < (bc2 : ℤ))))).length) := by
  refine ⟨?_, ?_, ?_⟩
  · simp only [validate_3df_vertices, if_neg (show ¬vs.length ≠ vs.length by omega),
      hhide, Bool.false_eq_true, if_false, if_pos hbc, hobad, if_true]
  · have hfl : ¬fs.length ≠ fs.length := by omega
    simp only [validate_3df_faces, if_neg hfl, hfbad, if_true, hdeg, hu, hvt,
      Bool.false_eq_true, if_false, hflags, hdmask, hdist, hnext, hgroup, hres,
      lt_irrefl]
  · simp only [validate_3df_bones_parents, if_neg (show ¬ps.length ≠ bc2 by omega),
      if_pos hpbad]

/-- Inputs for the C6 witness: one vertex owned by the out-of-range bone 5
with a single bone, one face whose first vertex index 7 exceeds the 3
declared vertices, and a single-bone parent array pointing at bone 5. -/
def c6Vertices : List Vertex := [{ coord := (0, 0, 0), owner := 5, hide := 0 }]

def c6Faces : List Face :=
  [{ v := (7, 0, 1), u_tex := (0, 0, 0), v_tex := (0, 0, 0), flags := 0,
     dmask := 0, distant := 0, next := 0, group := 0,
     reserv := List.replicate 12 0 }]

def c6Parents : List ℤ := [5]

/-- C6 witness for `index_repair_policy` on `c6Vertices`, `c6Faces`,
`c6Parents`. -/
theorem index_repair_policy_witness :
    validate_3df_vertices c6Vertices c6Vertices.length 1 [] =
      .ok (c6Vertices.map fun v => if 1 ≤ v.owner then { v with owner := 0 } else v,
        [] ++ [Warning.invalidOwner (c6Vertices.filter fun v => decide (1 ≤ v.owner)).length]) ∧
    validate_3df_faces c6Faces c6Faces.length 3 1 [] =
      .ok (c6Faces.map (clampFaceIdx 3),
        [] ++ [Warning.faceIdxClamped
          ((c6Faces.map fun f => count3 (faceBadIdx 3) f.v).sum)]) ∧
    validate_3df_bones_parents c6Parents 1 [] = .error (.invalidParentIndices
      (c6Parents.filter fun p =>
        !(decide (p = -1) || (decide (0 ≤ p) && decide (p < ((1 : ℕ) : ℤ))))).length) :=
  index_repair_policy c6Vertices 1 [] c6Faces 3 1 [] c6Parents 1 []
    (by decide) (by decide) (by decide) (by decide) (by decide) (by decide) (by decide)
    (by decide) (by decide) (by decide) (by decide) (by decide) (by decide) (by decide)
    (by decide)

/-! ## Claim C7 -/

/-- The minimal synthetic 3DF file of claim C7: 3 vertices, 1 face, no
bones, no texture, and exactly the 128 bytes its counts imply. -/
def minimal3DF : File3DF :=
  { header := { vertex_count := 3, face_count := 1, bone_count := 0, texture_size := 0 }
    file_size := 128
    faces := [{ v := (0, 1, 2), u_tex := (0, 0, 0), v_tex := (0, 0, 0), flags := 0,
                dmask := 0, distant := 0, next := 0, group := 0,
                reserv := List.replicate 12 0 }]
    vertices := [{ coord := (0, 0, 0), owner := 0, hide := 0 },
                 { coord := (1, 0, 0), owner := 0, hide := 0 },
                 { coord := (0, 1, 0), owner := 0, hide := 0 }]
    bone_parents := []
    texture_words := [] }

/-- What decoding `minimal3DF` actually produces: the one face with its
winding and texel triples reversed by the handedness flip, the three
vertices unchanged, no bones, an empty (not absent) texture, and exactly one
warning — the all-zero-texture advisory, which fires because a
`texture_size = 0` file has no non-zero texture word. -/
def minimalParsed : Parsed3DF :=
  { faces := [{ v := (2, 1, 0), u_tex := (0, 0, 0), v_tex := (0, 0, 0), flags := 0,
                dmask := 0, distant := 0, next := 0, group := 0,
                reserv := List.replicate 12 0 }]
    vertices := [{ coord := (0, 0, 0), owner := 0, hide := 0 },
                 { coord := (1, 0, 0), owner := 0, hide := 0 },
                 { coord := (0, 1, 0), owner := 0, hide := 0 }]
    bone_parents := []
    texture := []
    texture_height := 0
    warnings := [Warning.textureAllZero] }

/-- C7 counterexample: decoding the minimal synthetic file does not produce
an empty warning list — the all-zero-texture advisory is appended (and the
texture is an empty array, not an absent one). -/
theorem parse_minimal_cex :
    parse_3df minimal3DF true = .ok minimalParsed ∧ minimalParsed.warnings ≠ [] :=
  ⟨by rfl, by decide⟩

/-- C7 (amended): decoding the minimal well-formed file with
`vertex_count = 3`, `face_count = 1`, `bone_count = 0`, `texture_size = 0`
yields exactly 3 vertices, 1 face, an empty bone array, an empty texture,
and exactly one warning: the advisory that the texture data is completely
zero. -/
theorem parse_minimal_model :
    ∃ p, parse_3df minimal3DF true = .ok p ∧ p.vertices.length = 3 ∧
      p.faces.length = 1 ∧ p.bone_parents = [] ∧ p.texture = [] ∧
      p.warnings = [Warning.textureAllZero] :=
  ⟨minimalParsed, by rfl, by rfl, by rfl, by rfl, by rfl, by rfl⟩

/-! ## Claim C8 -/

theorem dist2_nonneg (p c : Pt) : 0 ≤ dist2 p c := by
  unfold dist2
  positivity

theorem edgeWeight2_nonneg (p c : Pt) : 0 ≤ edgeWeight2 p c := by
  unfold edgeWeight2
  by_cases h : crossesSym p c
  · rw [if_pos h]
    have := dist2_nonneg p c
    linarith
  · rw [if_neg h]
    exact dist2_nonneg p c

set_option maxHeartbeats 2000000 in
/-- C8 counterexample: a cluster set consisting of two mirrored limb chains
only (no near-center node) forces the MST to bridge the chains: node 0 on
the `+x` side becomes the parent of node 2 on the `-x` side, an edge that
crosses the symmetry plane beyond the deadzone. -/
theorem mst_cross_chain_cex :
    infer_hierarchy_mst twoChainOnly none = [-1, 0, 0, 2] ∧
      crossesSym (twoChainOnly.getD 0 (0, 0, 0)) (twoChainOnly.getD 2 (0, 0, 0)) := by
  constructor
  · norm_num [infer_hierarchy_mst, twoChainOnly, primSteps, primScan, scanStep,
      edgeWeight2, crossesSym, dist2, List.range_succ, List.getD]
    all_goals decide
  · norm_num [crossesSym, twoChainOnly, List.getD]

set_option maxHeartbeats 4000000 in
/-- C8 (amended): candidate edges whose endpoints lie on opposite sides of
the symmetry plane beyond the 0.05 deadzone have their Euclidean distance
multiplied by the 50× penalty before comparison (the embedding's squared
weights are order-isomorphic to those penalised distances); the
never-cross-wire guarantee does not hold for a cluster set holding only the
two mirrored chains (the tree must bridge them), but in the synthetic
mirrored-limb scenario with a near-center root the MST assigns no
cross-plane parent. -/
theorem mst_symmetry_penalty :
    (∀ p c : Pt, Real.sqrt ((edgeWeight2 p c : ℚ) : ℝ) =
      (if crossesSym p c then (50 : ℝ) else 1) * Real.sqrt ((dist2 p c : ℚ) : ℝ)) ∧
    (∀ p c p' c' : Pt, edgeWeight2 p c < edgeWeight2 p' c' ↔
      Real.sqrt ((edgeWeight2 p c : ℚ) : ℝ) < Real.sqrt ((edgeWeight2 p' c' : ℚ) : ℝ)) ∧
    infer_hierarchy_mst mirroredLimbScenario none = [-1, 0, 1, 0, 3] ∧
    noCrossAssignments mirroredLimbScenario
      (infer_hierarchy_mst mirroredLimbScenario none) := by
  have hmst : infer_hierarchy_mst mirroredLimbScenario none = [-1, 0, 1, 0, 3] := by
    norm_num [infer_hierarchy_mst, mirroredLimbScenario, primSteps, primScan, scanStep,
      edgeWeight2, crossesSym, dist2, List.range_succ, List.getD]
    all_goals decide
  refine ⟨?_, ?_, hmst, ?_⟩
  · intro p c
    unfold edgeWeight2
    by_cases h : crossesSym p c
    · rw [if_pos h, if_pos h]
      push_cast
      rw [Real.sqrt_mul (by norm_num : (0 : ℝ) ≤ 2500)]
      rw [show (2500 : ℝ) = 50 ^ 2 by norm_num, Real.sqrt_sq (by norm_num : (0 : ℝ) ≤ 50)]
    · rw [if_neg h, if_neg h, one_mul]
  · intro p c p' c'
    rw [Real.sqrt_lt_sqrt_iff (by exact_mod_cast edgeWeight2_nonneg p c)]
    exact_mod_cast Iff.rfl
  · rw [hmst]
    intro j i h
    rcases j with _ | _ | _ | _ | _ | j
    · simp at h
    · have hi : i = 0 := by
        simp at h
        omega
      subst hi
      norm_num [crossesSym, mirroredLimbScenario, List.getD]
    · have hi : i = 1 := by
        simp at h
        omega
      subst hi
      norm_num [crossesSym, mirroredLimbScenario, List.getD]
    · have hi : i = 0 := by
        simp at h
        omega
      subst hi
      norm_num [crossesSym, mirroredLimbScenario, List.getD]
    · have hi : i = 3 := by
        simp at h
        omega
      subst hi
      norm_num [crossesSym, mirroredLimbScenario, List.getD]
    · simp at h

/-! ## Claim C1 -/

/-- C1 counterexample: with host fps 30, kps 10 and frame range [0, 29] the
baker produces 11 samples, not the 10 the claim states. -/
theorem bake_sample_count_cex :
    bake_num_samples 30 10 0 29 = 11 ∧ bake_num_samples 30 10 0 29 ≠ 10 :=
  ⟨by norm_num [bake_num_samples, ratTrunc], by norm_num [bake_num_samples, ratTrunc]⟩

/-- C1 (amended): for positive host fps and kps and a non-empty range, the
sample count is round-half-up((end - start) / (host_fps / kps)) + 1; with
host_fps = 30, kps = 10, range [0, 29] this is 11 samples (not 10); with
host_fps = kps = 24 the count is the range length plus 1. -/
theorem bake_sample_count_formula (scene_fps kps start_ end_ : ℤ)
    (hf : 0 < scene_fps) (hk : 0 < kps) (hr : start_ ≤ end_) :
    bake_num_samples scene_fps kps start_ end_ =
      round (((end_ - start_ : ℤ) : ℚ) / ((scene_fps : ℚ) / (kps : ℚ))) + 1 ∧
    bake_num_samples 30 10 0 29 = 11 ∧
    bake_num_samples 24 24 start_ end_ = (end_ - start_) + 1 := by
  have hΔ : (0 : ℚ) ≤ ((end_ - start_ : ℤ) : ℚ) := by
    exact_mod_cast sub_nonneg.mpr hr
  refine ⟨?_, by norm_num [bake_num_samples, ratTrunc], ?_⟩
  · have hk' : ¬ kps ≤ 0 := not_le.mpr hk
    have hstep : (0 : ℚ) < (scene_fps : ℚ) / (kps : ℚ) :=
      div_pos (by exact_mod_cast hf) (by exact_mod_cast hk)
    have hq : (0 : ℚ) ≤ ((end_ - start_ : ℤ) : ℚ) / ((scene_fps : ℚ) / (kps : ℚ)) :=
      div_nonneg hΔ hstep.le
    simp only [bake_num_samples, if_neg hk']
    rw [ratTrunc_of_nonneg (by linarith), round_eq]
  · have h24 : ¬ (24 : ℤ) ≤ 0 := by norm_num
    simp only [bake_num_samples, if_neg h24]
    have hone : ((24 : ℤ) : ℚ) / ((24 : ℤ) : ℚ) = 1 := by norm_num
    rw [hone, div_one, ratTrunc_of_nonneg (by linarith)]
    rw [add_comm ((_ : ℤ) : ℚ) (1/2), Int.floor_add_int]
    norm_num

/-- C1 witness for `bake_sample_count_formula` at fps 30, kps 10, range [0, 29]. -/
theorem bake_sample_count_formula_witness :
    (0 : ℤ) < 30 ∧ (0 : ℤ) < 10 ∧ (0 : ℤ) ≤ 29 ∧
      (bake_num_samples 30 10 0 29 =
          round (((29 - 0 : ℤ) : ℚ) / (((30 : ℤ) : ℚ) / ((10 : ℤ) : ℚ))) + 1 ∧
        bake_num_samples 30 10 0 29 = 11 ∧
        bake_num_samples 24 24 0 29 = (29 - 0) + 1) :=
  ⟨by norm_num, by norm_num, by norm_num,
    bake_sample_count_formula 30 10 0 29 (by norm_num) (by norm_num) (by norm_num)⟩

/-! ## Claim C9 -/

/-- C9 counterexample: at sample value 1/2 the code produces 16383 (clamp
then truncate toward zero) while the claimed round-to-nearest conversion
gives 16384. -/
theorem convert_sample_cex :
    convert_sample (1/2) = 16383 ∧ spec_convert_sample (1/2) = 16384 ∧
      convert_sample (1/2) ≠ spec_convert_sample (1/2) := by
  have h1 : convert_sample (1/2) = 16383 := by norm_num [convert_sample, ratTrunc]
  have h2 : spec_convert_sample (1/2) = 16384 := by
    norm_num [spec_convert_sample, round_eq]
  exact ⟨h1, h2, by rw [h1, h2]; omega⟩

/-- C9 (amended): for samples in [-1, 1] the conversion yields the scaled
value truncated toward zero (the clamp is inactive there), bounded by
±32767; no rounding to nearest occurs. -/
theorem convert_sample_trunc (s : ℚ) (h1 : -1 ≤ s) (h2 : s ≤ 1) :
    convert_sample s = ratTrunc (s * 32767) ∧
    -32767 ≤ convert_sample s ∧ convert_sample s ≤ 32767 := by
  have hlo : (-32767 : ℚ) ≤ s * 32767 := by nlinarith
  have hhi : s * 32767 ≤ 32767 := by nlinarith
  have hmax : max (-32768 : ℚ) (min 32767 (s * 32767)) = s * 32767 := by
    rw [min_eq_right hhi]; exact max_eq_right (by linarith)
  have he : convert_sample s = ratTrunc (s * 32767) := by
    unfold convert_sample; rw [hmax]
  refine ⟨he, ?_, ?_⟩ <;> rw [he] <;> unfold ratTrunc
  · rcases le_or_lt 0 (s * 32767) with hv | hv
    · rw [if_pos hv]
      have : (0 : ℤ) ≤ ⌊s * 32767⌋ := Int.floor_nonneg.mpr hv
      omega
    · rw [if_neg (not_le.mpr hv)]
      have h' : ⌊-(s * 32767)⌋ ≤ ⌊(32767 : ℚ)⌋ := Int.floor_le_floor (by linarith)
      have h32 : ⌊(32767 : ℚ)⌋ = 32767 := by norm_num
      omega
  · rcases le_or_lt 0 (s * 32767) with hv | hv
    · rw [if_pos hv]
      have h' : ⌊s * 32767⌋ ≤ ⌊(32767 : ℚ)⌋ := Int.floor_le_floor hhi
      have h32 : ⌊(32767 : ℚ)⌋ = 32767 := by norm_num
      omega
    · rw [if_neg (not_le.mpr hv)]
      have : (0 : ℤ) ≤ ⌊-(s * 32767)⌋ := Int.floor_nonneg.mpr (by linarith)
      omega

/-- C9 witness for `convert_sample_trunc` at sample 1/2. -/
theorem convert_sample_trunc_witness :
    (-1 : ℚ) ≤ 1/2 ∧ (1/2 : ℚ) ≤ 1 ∧
      (convert_sample (1/2) = ratTrunc ((1/2) * 32767) ∧
        -32767 ≤ convert_sample (1/2) ∧ convert_sample (1/2) ≤ 32767) :=
  ⟨by norm_num, by norm_num, convert_sample_trunc (1/2) (by norm_num) (by norm_num)⟩

/-! ## Claim C2 -/

/-- C2: for every 16-bit texture buffer whose words have alpha bit 0
(value < 32768) and whose length matches 256 × height, packing the result of
unpacking reproduces the buffer exactly: the 5-bit fields normalised by /31
survive the round (not truncate) and clamp of the packer, the alpha bit is
rewritten as 0, and the vertical row flip of the unpacker is undone by the
flip of the packer. -/
theorem texture_roundtrip (words : List ℕ) (h : ℕ)
    (hlen : words.length = 256 * h) (hbits : ∀ x ∈ words, x < 32768) :
    ∃ px, parse_3df_texture words (2 * words.length) h = .ok (px, words) ∧
      image_to_argb1555 px h = words := by
  have hdiv : 2 * words.length / 2 = words.length := by omega
  have hmod : (2 * words.length) % 512 = 0 := by
    rw [hlen]
    omega
  have hparse : parse_3df_texture words (2 * words.length) h =
      .ok ((if 0 < h then flipRows h 256 (words.map unpackWord)
            else words.map unpackWord), words) := by
    unfold parse_3df_texture
    rw [hdiv, if_neg (by exact fun hne => hne rfl), if_neg (by rw [hmod]; exact fun hne => hne rfl)]
  refine ⟨_, hparse, ?_⟩
  have hmaplen : (words.map unpackWord).length = 256 * h := by
    rw [List.length_map, hlen]
  have hpack : (words.map unpackWord).map packPixel = words := by
    rw [List.map_map]
    have : ∀ x ∈ words, (packPixel ∘ unpackWord) x = id x := fun x hx =>
      packPixel_unpackWord (hbits x hx)
    rw [List.map_congr_left this, List.map_id]
  by_cases hpos : 0 < h
  · rw [if_pos hpos]
    unfold image_to_argb1555
    rw [flipRows_flipRows hmaplen, hpack]
  · rw [if_neg hpos]
    have hh : h = 0 := by omega
    subst hh
    have hwnil : words = [] := List.length_eq_zero.mp (by omega)
    subst hwnil
    rfl

set_option maxRecDepth 8000 in
/-- C2 witness for `texture_roundtrip` on a one-row buffer of 256 copies of
the word 12345 (alpha bit 0). -/
theorem texture_roundtrip_witness :
    (List.replicate 256 12345).length = 256 * 1 ∧
      (∀ x ∈ List.replicate 256 12345, x < 32768) ∧
      ∃ px, parse_3df_texture (List.replicate 256 12345)
            (2 * (List.replicate 256 12345).length) 1 =
          .ok (px, List.replicate 256 12345) ∧
        image_to_argb1555 px 1 = List.replicate 256 12345 :=
  ⟨by decide, by decide,
    texture_roundtrip (List.replicate 256 12345) 1 (by decide) (by decide)⟩

/-! ## Claim C4 -/

theorem crossRefInvalid_iff {sfx_count : ℕ} {x : ℤ} :
    crossRefInvalid sfx_count x = true ↔ ((sfx_count : ℤ) ≤ x ∨ x < -1) := by
  simp [crossRefInvalid]

/-- C4: validation of a decoded 64-entry cross-reference table replaces every
entry `≥ sound_count` or `< -1` by `-1`, appends one warning counting the
invalid entries when any exists, and leaves every entry in
`[-1, sound_count)` unchanged (returning the table and warnings untouched
when all entries are valid). -/
theorem crossref_clamp_correct (cr : List ℤ) (sfx_count : ℕ) (w : List Warning)
    (h64 : cr.length = 64) :
    (clamp_crossref cr sfx_count true w).1.length = 64 ∧
    (∀ i x, cr.get? i = some x →
      (((sfx_count : ℤ) ≤ x ∨ x < -1) →
        (clamp_crossref cr sfx_count true w).1.get? i = some (-1)) ∧
      ((-1 ≤ x ∧ x < (sfx_count : ℤ)) →
        (clamp_crossref cr sfx_count true w).1.get? i = some x)) ∧
    ((∃ x ∈ cr, (sfx_count : ℤ) ≤ x ∨ x < -1) →
      (clamp_crossref cr sfx_count true w).2 =
        w ++ [Warning.invalidCrossRef (cr.filter (crossRefInvalid sfx_count)).length]) ∧
    ((∀ x ∈ cr, -1 ≤ x ∧ x < (sfx_count : ℤ)) →
      clamp_crossref cr sfx_count true w = (cr, w)) := by
  by_cases hany : cr.any (crossRefInvalid sfx_count) = true
  · have hout : clamp_crossref cr sfx_count true w =
        (cr.map fun x => if crossRefInvalid sfx_count x then -1 else x,
          w ++ [Warning.invalidCrossRef (cr.filter (crossRefInvalid sfx_count)).length]) := by
      unfold clamp_crossref
      rw [if_pos hany]
      simp
    rw [hout]
    refine ⟨by simpa using h64, ?_, fun _ => rfl, ?_⟩
    · intro i x hx
      constructor
      · intro hinv
        rw [List.get?_map, hx]
        simp [crossRefInvalid_iff.mpr hinv]
      · intro hval
        have hninv : crossRefInvalid sfx_count x = false := by
          rcases hval with ⟨hl, hr⟩
          cases hc : crossRefInvalid sfx_count x with
          | false => rfl
          | true => rcases crossRefInvalid_iff.mp hc with h' | h' <;> omega
        rw [List.get?_map, hx]
        simp [hninv]
    · intro hval
      exfalso
      rcases List.any_eq_true.mp hany with ⟨x, hx, hinv⟩
      rcases crossRefInvalid_iff.mp hinv with h' | h' <;>
        rcases hval x hx with ⟨hl, hr⟩ <;> omega
  · have hout : clamp_crossref cr sfx_count true w = (cr, w) := by
      unfold clamp_crossref
      rw [if_neg hany]
    rw [hout]
    refine ⟨h64, ?_, ?_, fun _ => rfl⟩
    · intro i x hx
      constructor
      · intro hinv
        exfalso
        exact hany (List.any_eq_true.mpr ⟨x, List.get?_mem hx, crossRefInvalid_iff.mpr hinv⟩)
      · intro _; exact hx
    · intro ⟨x, hx, hinv⟩
      exact absurd (List.any_eq_true.mpr ⟨x, hx, crossRefInvalid_iff.mpr hinv⟩) hany

/-- C4 witness for `crossref_clamp_correct` on a table holding one valid `-1`
entry, one invalid entry `5` (with sound count 3), and 62 zeros. -/
theorem crossref_clamp_correct_witness :
    ((-1 : ℤ) :: 5 :: List.replicate 62 0).length = 64 ∧
      ((clamp_crossref ((-1 : ℤ) :: 5 :: List.replicate 62 0) 3 true []).1.length = 64 ∧
      (∀ i x, ((-1 : ℤ) :: 5 :: List.replicate 62 0).get? i = some x →
        (((3 : ℕ) : ℤ) ≤ x ∨ x < -1 →
          (clamp_crossref ((-1 : ℤ) :: 5 :: List.replicate 62 0) 3 true []).1.get? i =
            some (-1)) ∧
        ((-1 ≤ x ∧ x < ((3 : ℕ) : ℤ)) →
          (clamp_crossref ((-1 : ℤ) :: 5 :: List.replicate 62 0) 3 true []).1.get? i =
            some x)) ∧
      ((∃ x ∈ (-1 : ℤ) :: 5 :: List.replicate 62 0, ((3 : ℕ) : ℤ) ≤ x ∨ x < -1) →
        (clamp_crossref ((-1 : ℤ) :: 5 :: List.replicate 62 0) 3 true []).2 =
          [] ++ [Warning.invalidCrossRef
            (((-1 : ℤ) :: 5 :: List.replicate 62 0).filter (crossRefInvalid 3)).length]) ∧
      ((∀ x ∈ (-1 : ℤ) :: 5 :: List.replicate 62 0, -1 ≤ x ∧ x < ((3 : ℕ) : ℤ)) →
        clamp_crossref ((-1 : ℤ) :: 5 :: List.replicate 62 0) 3 true [] =
          ((-1 : ℤ) :: 5 :: List.replicate 62 0, []))) :=
  ⟨by decide, crossref_clamp_correct ((-1 : ℤ) :: 5 :: List.replicate 62 0) 3 [] (by decide)⟩

/-! ## Claim C10 -/

/-- C10 counterexample: a model whose only vertex has owner index 1 exports
to on-disk owner 2, and decoding maps it back to owner 0, not 1. -/
theorem car_owner_roundtrip_cex :
    handle_car_owners (export_car_owners [1]) = [0] ∧
      handle_car_owners (export_car_owners [1]) ≠ [1] :=
  ⟨by decide, by decide⟩

/-- C10 (amended): decoding the encoded owners yields each original owner
minus the minimum owner value of the model, so the round-trip is exact
precisely when the minimum owner is 0. -/
theorem car_owner_roundtrip_shift (owners : List ℕ) (m : ℕ)
    (hmin : listMin owners = some m) (hb : ∀ o ∈ owners, o < 65535) :
    handle_car_owners (export_car_owners owners) = owners.map (fun o => o - m) ∧
    (m = 0 → handle_car_owners (export_car_owners owners) = owners) := by
  have hexp : export_car_owners owners = owners.map (· + 1) := by
    unfold export_car_owners
    refine List.map_congr_left ?_
    intro o ho
    exact Nat.mod_eq_of_lt (by have := hb o ho; omega)
  have hfil : (owners.map (· + 1)).filter (fun o => decide (0 < o)) =
      owners.map (· + 1) := by
    refine List.filter_eq_self.mpr ?_
    intro x hx
    rcases List.mem_map.mp hx with ⟨o, _, rfl⟩
    simp
  have hm : listMin (owners.map (· + 1)) = some (m + 1) := by
    rw [listMin_map_succ, hmin]; rfl
  have hmain : handle_car_owners (export_car_owners owners) =
      owners.map (fun o => o - m) := by
    rw [hexp]
    simp only [handle_car_owners, hfil, hm, List.map_map]
    refine List.map_congr_left ?_
    intro o _
    simp only [Function.comp_apply]
    rw [if_pos (Nat.succ_pos o)]
    omega
  refine ⟨hmain, fun hm0 => ?_⟩
  rw [hmain, hm0]
  simp

/-- C10 witness for `car_owner_roundtrip_shift` on owners [0, 2]. -/
theorem car_owner_roundtrip_shift_witness :
    listMin [0, 2] = some 0 ∧ (∀ o ∈ [0, 2], o < 65535) ∧
      (handle_car_owners (export_car_owners [0, 2]) = [0, 2].map (fun o => o - 0) ∧
        (0 = 0 → handle_car_owners (export_car_owners [0, 2]) = [0, 2])) :=
  ⟨by decide, by decide, car_owner_roundtrip_shift [0, 2] 0 (by decide) (by decide)⟩

end CarnivoresIO
